import Mathlib

/-! GoMeet signaling relay: room registry and message router.

A shallow embedding of `backend/main.go`.  The two package-level maps
`rooms` and `users` become the fields of an explicit `Registry` value that
every handler receives and returns; the mutex is not modelled, each handler
is one atomic step.  The `fmt.Printf` inside `broadcastToRoom` is the only
observable output of a broadcast, so every such line is recorded as a
`Delivery`.  A failed Go type assertion (a run-time panic) is the `Fault`
result of an `Except`.
-/

namespace GoMeet

/-! ## Decoded JSON values -/

/-- What `encoding/json` stores in an `interface{}`.  Numbers are `float64`
in Go; no handler ever inspects one, they are carried here as integers. -/
inductive Value where
  | null : Value
  | bool (b : Bool) : Value
  | number (n : Int) : Value
  | string (s : String) : Value
  | array (items : List Value) : Value
  | object (fields : List (String × Value)) : Value

/-- A `map[string]interface{}`, as a list of bindings read front to back. -/
abbrev JSONObject := List (String × Value)

/-- The run-time fault of a failed type assertion `x.(T)`. -/
inductive Fault where
  | typeAssertion : Fault
  deriving DecidableEq, Repr

/-- Map indexing `m[key]`: `none` is the nil interface of an absent key. -/
def index : JSONObject → String → Option Value
  | [], _ => none
  | (k, v) :: rest, key => if k = key then some v else index rest key

/-- The assertion `x.(string)`. -/
def assertString : Option Value → Except Fault String
  | some (Value.string s) => Except.ok s
  | _ => Except.error Fault.typeAssertion

/-- The assertion `x.(map[string]interface{})`. -/
def assertObject : Option Value → Except Fault JSONObject
  | some (Value.object fields) => Except.ok fields
  | _ => Except.error Fault.typeAssertion

/-! ## Registry state -/

/-- The struct `Room`. -/
structure Room where
  RoomID : String
  Users : List String
  deriving DecidableEq, Repr

/-- The globals `rooms` (room name to room) and `users` (connection to room
name); a Go map is a partial function on its keys. -/
structure Registry where
  rooms : String → Option Room
  users : String → Option String

/-- Both maps as `make` leaves them. -/
def emptyRegistry : Registry :=
  { rooms := fun _ => none, users := fun _ => none }

/-- The assignment `m[key] = v`. -/
def mapSet {β : Type} (m : String → Option β) (key : String) (v : β) : String → Option β :=
  fun k => if k = key then some v else m k

/-- The call `delete(m, key)`. -/
def mapDelete {β : Type} (m : String → Option β) (key : String) : String → Option β :=
  fun k => if k = key then none else m k

/-- The read `users[socketID]`: an absent key reads as the zero value `""`. -/
def usersLookup (s : Registry) (socketID : String) : String :=
  (s.users socketID).getD ""

/-- One line printed by `broadcastToRoom`: the addressed user, the event name
and the payload. -/
structure Delivery where
  target : String
  event : String
  data : JSONObject

/-! ## Handlers -/

/-- The critical section of `handleJoin`, once `roomId` is known to be a
string: record the room in `users`, create the room when it does not exist,
append the connection to its `Users`. -/
def Join (s : Registry) (socketID roomID : String) : Registry :=
  let room : Room :=
    match s.rooms roomID with
    | some room => room
    | none => { RoomID := roomID, Users := [] }
  { users := mapSet s.users socketID roomID
    rooms := mapSet s.rooms roomID { room with Users := room.Users ++ [socketID] } }

/-- The handler `handleJoin`: the assertion on `data["roomId"]` comes first,
before the lock is taken. -/
def handleJoin (s : Registry) (socketID : String) (data : JSONObject) : Except Fault Registry :=
  match assertString (index data "roomId") with
  | Except.ok roomID => Except.ok (Join s socketID roomID)
  | Except.error e => Except.error e

/-- The loop of `handleDisconnect` that rebuilds the member list. -/
def removeUser (socketID : String) (roomUsers : List String) : List String :=
  roomUsers.foldl (fun newUsers user => if user ≠ socketID then newUsers ++ [user] else newUsers) []

/-- The handler `handleDisconnect`, the registry operation called Leave. -/
def handleDisconnect (s : Registry) (socketID : String) : Registry :=
  let roomID := usersLookup s socketID
  let rooms :=
    match s.rooms roomID with
    | some room => mapSet s.rooms roomID { room with Users := removeUser socketID room.Users }
    | none => s.rooms
  { rooms := rooms, users := mapDelete s.users socketID }

/-- The function `broadcastToRoom`: one delivery per member of the sender's
room other than the sender, in member-list order. -/
def broadcastToRoom (s : Registry) (socketID event : String) (data : JSONObject) : List Delivery :=
  let roomID := usersLookup s socketID
  match s.rooms roomID with
  | some room =>
      room.Users.foldl
        (fun out user =>
          if user ≠ socketID then out ++ [{ target := user, event := event, data := data }] else out)
        []
  | none => []

/-- The connections `broadcastToRoom` addresses for a sender. -/
def BroadcastTargets (s : Registry) (socketID : String) : List String :=
  (broadcastToRoom s socketID "" []).map Delivery.target

/-- The handler `handleLocalDescription` (its unused `socket` argument is
dropped). -/
def handleLocalDescription (s : Registry) (socketID : String) (data : JSONObject) :
    Except Fault (List Delivery) :=
  match assertString (index data "description") with
  | Except.ok description =>
      Except.ok (broadcastToRoom s socketID "localDescription"
        [("description", Value.string description)])
  | Except.error e => Except.error e

/-- The handler `handleRemoteDescription`. -/
def handleRemoteDescription (s : Registry) (socketID : String) (data : JSONObject) :
    Except Fault (List Delivery) :=
  match assertString (index data "description") with
  | Except.ok description =>
      Except.ok (broadcastToRoom s socketID "remoteDescription"
        [("description", Value.string description)])
  | Except.error e => Except.error e

/-- The handler `handleIceCandidate`. -/
def handleIceCandidate (s : Registry) (socketID : String) (data : JSONObject) :
    Except Fault (List Delivery) :=
  match assertString (index data "candidate") with
  | Except.ok candidate =>
      Except.ok (broadcastToRoom s socketID "iceCandidate"
        [("candidate", Value.string candidate)])
  | Except.error e => Except.error e

/-- The handler `handleIceCandidateReply`. -/
def handleIceCandidateReply (s : Registry) (socketID : String) (data : JSONObject) :
    Except Fault (List Delivery) :=
  match assertString (index data "candidate") with
  | Except.ok candidate =>
      Except.ok (broadcastToRoom s socketID "iceCandidateReply"
        [("candidate", Value.string candidate)])
  | Except.error e => Except.error e

/-! ## The read loop of `handleConnections` -/

/-- Lift a broadcasting handler, which never writes the registry, to the
shape of a loop iteration. -/
def relay (s : Registry) (r : Except Fault (List Delivery)) :
    Except Fault (Registry × List Delivery) :=
  match r with
  | Except.ok out => Except.ok (s, out)
  | Except.error e => Except.error e

/-- The body of the loop after a successful `ReadJSON`: the two assertions
on `message["event"]` and `message["data"]`, then the `switch`, which has no
default case. -/
def processMessage (s : Registry) (socketID : String) (message : JSONObject) :
    Except Fault (Registry × List Delivery) :=
  match assertString (index message "event") with
  | Except.error e => Except.error e
  | Except.ok event =>
    match assertObject (index message "data") with
    | Except.error e => Except.error e
    | Except.ok data =>
      if event = "join" then
        match handleJoin s socketID data with
        | Except.ok s1 => Except.ok (s1, [])
        | Except.error e => Except.error e
      else if event = "localDescription" then relay s (handleLocalDescription s socketID data)
      else if event = "remoteDescription" then relay s (handleRemoteDescription s socketID data)
      else if event = "iceCandidate" then relay s (handleIceCandidate s socketID data)
      else if event = "iceCandidateReply" then relay s (handleIceCandidateReply s socketID data)
      else Except.ok (s, [])

/-- What one call of `socket.ReadJSON` yields. -/
inductive ReadResult where
  | error : ReadResult
  | message (m : JSONObject) : ReadResult

/-- Why `handleConnections` returned. -/
inductive Ending where
  | upgradeFailed : Ending
  | readError : Ending
  | fault : Ending
  deriving DecidableEq, Repr

/-- The registry, the deliveries printed and the way the handler ended. -/
structure Session where
  state : Registry
  out : List Delivery
  ending : Ending

/-- The `for` loop over the reads of one connection, taken alone (no other
connection writes the registry meanwhile).  A read error breaks out of the
loop and a fault unwinds it; the end of the given reads stands for the read
error of a closed connection. -/
def readLoop (s : Registry) (socketID : String) : List ReadResult → Session
  | [] => { state := s, out := [], ending := Ending.readError }
  | ReadResult.error :: _ => { state := s, out := [], ending := Ending.readError }
  | ReadResult.message m :: rest =>
    match processMessage s socketID m with
    | Except.error _ => { state := s, out := [], ending := Ending.fault }
    | Except.ok (s1, out) =>
      let r := readLoop s1 socketID rest
      { state := r.state, out := out ++ r.out, ending := r.ending }

/-- The handler `handleConnections`.  A failed upgrade (`none`) returns
before the deferred `handleDisconnect` is registered.  Otherwise the deferred
call runs once when the loop is left, on a break as on a fault. -/
def handleConnections (s : Registry) (upgrade : Option String) (reads : List ReadResult) :
    Session :=
  match upgrade with
  | none => { state := s, out := [], ending := Ending.upgradeFailed }
  | some socketID =>
    let r := readLoop s socketID reads
    { state := handleDisconnect r.state socketID, out := r.out, ending := r.ending }

/-! ## Sequences of registry operations -/

/-- A registry operation: Join or Leave. -/
inductive Op where
  | join (socketID roomID : String) : Op
  | leave (socketID : String) : Op

/-- Run one operation. -/
def applyOp (s : Registry) : Op → Registry
  | Op.join socketID roomID => Join s socketID roomID
  | Op.leave socketID => handleDisconnect s socketID

/-- Run a sequence of operations, first to last. -/
def applyOps (s : Registry) (ops : List Op) : Registry :=
  ops.foldl applyOp s

/-- The states the empty registry reaches by Join and Leave operations. -/
def Reachable (s : Registry) : Prop :=
  ∃ ops : List Op, applyOps emptyRegistry ops = s

/-- The member list of a room, empty when the room does not exist. -/
def members (s : Registry) (roomID : String) : List String :=
  match s.rooms roomID with
  | some room => room.Users
  | none => []

/-- Every membership is recorded in the index: a connection in the member
list of a room has that room as its `users` entry. -/
def MembersIndexed (s : Registry) : Prop :=
  ∀ q d, d ∈ members s q → s.users d = some q

/-- The membership index is backed by the room table: an entry of `users`
names a room that exists and lists the connection. -/
def IndexConsistent (s : Registry) : Prop :=
  ∀ c r, s.users c = some r → ∃ room, s.rooms r = some room ∧ c ∈ room.Users

/-- A registry operation or a broadcast by a sender. -/
inductive Action where
  | join (socketID roomID : String) : Action
  | leave (socketID : String) : Action
  | broadcast (socketID : String) : Action

/-- Run a sequence of actions, first to last: the final registry and the
target sequence of every broadcast, in the order the broadcasts were made. -/
def runActions (s : Registry) : List Action → Registry × List (List String)
  | [] => (s, [])
  | Action.join socketID roomID :: rest => runActions (Join s socketID roomID) rest
  | Action.leave socketID :: rest => runActions (handleDisconnect s socketID) rest
  | Action.broadcast socketID :: rest =>
    ((runActions s rest).1, BroadcastTargets s socketID :: (runActions s rest).2)

/-- Two registries that differ at most in the presence of empty rooms: the
same index, and under every name either the same room or an empty room of
that name on one side and nothing on the other. -/
def SameUpToEmptyRooms (s t : Registry) : Prop :=
  s.users = t.users
    ∧ ∀ q, s.rooms q = t.rooms q
        ∨ (s.rooms q = some { RoomID := q, Users := [] } ∧ t.rooms q = none)
        ∨ (s.rooms q = none ∧ t.rooms q = some { RoomID := q, Users := [] })

/-- The room table holds at most `n` rooms with an empty member list: every
duplicate-free list of names of such rooms has at most `n` entries. -/
def EmptyRoomsAtMost (s : Registry) (n : Nat) : Prop :=
  ∀ names : List String, names.Nodup →
    (∀ q ∈ names, ∃ room, s.rooms q = some room ∧ room.Users = []) → names.length ≤ n

/-- A family of pairwise different names, used both for rooms and for
connections: the letter r repeated `i` times. -/
def roomName (i : Nat) : String :=
  String.mk (List.replicate i 'r')

/-- The first `k` names each join the room of the same name and leave it
again. -/
def leakOps : Nat → List Op
  | 0 => []
  | k + 1 => leakOps k ++ [Op.join (roomName k) (roomName k), Op.leave (roomName k)]

/-! ## The two loops as filters -/

theorem foldl_keep_eq {β : Type} (c : String) (f : String → β) (xs : List String)
    (init : List β) :
    xs.foldl (fun acc u => if u ≠ c then acc ++ [f u] else acc) init
      = init ++ (xs.filter (fun u => decide (u ≠ c))).map f := by
  induction xs generalizing init with
  | nil => simp
  | cons x rest ih =>
    rw [List.foldl_cons, ih]
    by_cases hx : x = c
    · simp [hx]
    · simp [hx]

theorem removeUser_eq_filter (c : String) (xs : List String) :
    removeUser c xs = xs.filter (fun u => decide (u ≠ c)) := by
  have h := foldl_keep_eq c (fun u => u) xs []
  simpa [removeUser] using h

theorem broadcastToRoom_eq (s : Registry) (c event : String) (data : JSONObject) :
    broadcastToRoom s c event data
      = ((members s (usersLookup s c)).filter (fun u => decide (u ≠ c))).map
          (fun u => { target := u, event := event, data := data }) := by
  cases h : s.rooms (usersLookup s c) with
  | none => simp [broadcastToRoom, members, h]
  | some room =>
    have h2 := foldl_keep_eq c
      (fun u => ({ target := u, event := event, data := data } : Delivery)) room.Users []
    simp only [broadcastToRoom, members, h]
    rw [h2, List.nil_append]

theorem BroadcastTargets_eq (s : Registry) (c : String) :
    BroadcastTargets s c = (members s (usersLookup s c)).filter (fun u => decide (u ≠ c)) := by
  unfold BroadcastTargets
  rw [broadcastToRoom_eq, List.map_map]
  simp [Function.comp_def]

theorem broadcastToRoom_eq_map_targets (s : Registry) (c event : String) (data : JSONObject) :
    broadcastToRoom s c event data
      = (BroadcastTargets s c).map (fun t => { target := t, event := event, data := data }) := by
  rw [BroadcastTargets_eq, broadcastToRoom_eq]

/-! ## What Leave writes -/

theorem users_handleDisconnect (s : Registry) (c d : String) :
    (handleDisconnect s c).users d = if d = c then none else s.users d := by
  simp [handleDisconnect, mapDelete]

theorem rooms_handleDisconnect (s : Registry) (c q : String) :
    (handleDisconnect s c).rooms q
      = if q = usersLookup s c then
          (s.rooms q).map
            (fun room => { room with Users := room.Users.filter (fun u => decide (u ≠ c)) })
        else s.rooms q := by
  by_cases hq : q = usersLookup s c
  · subst hq
    cases h : s.rooms (usersLookup s c) with
    | none => simp [handleDisconnect, h]
    | some room => simp [handleDisconnect, h, mapSet, removeUser_eq_filter]
  · cases h : s.rooms (usersLookup s c) with
    | none => simp [handleDisconnect, h, hq]
    | some room => simp [handleDisconnect, h, mapSet, hq]

theorem members_handleDisconnect (s : Registry) (c q : String) :
    members (handleDisconnect s c) q
      = if q = usersLookup s c then (members s q).filter (fun u => decide (u ≠ c))
        else members s q := by
  by_cases hq : q = usersLookup s c
  · cases h : s.rooms q <;> simp [members, rooms_handleDisconnect, hq.symm, h]
  · simp only [members, rooms_handleDisconnect, hq, if_false]

theorem mem_members_of_mem_handleDisconnect (s : Registry) (c q d : String)
    (h : d ∈ members (handleDisconnect s c) q) : d ∈ members s q := by
  rw [members_handleDisconnect] at h
  by_cases hq : q = usersLookup s c
  · rw [if_pos hq] at h
    exact (List.mem_filter.mp h).1
  · rw [if_neg hq] at h
    exact h

/-! ## Registry claims -/

/-- C1, evaluated where it fails: d joins room r and then room q, c joins
room r.  The index of c is r and the index of d is q, yet the targets of c
are exactly d. -/
theorem C1_rejoined_connection_still_targeted :
    (applyOps emptyRegistry [Op.join "d" "r", Op.join "d" "q", Op.join "c" "r"]).users "c"
        = some "r"
      ∧ (applyOps emptyRegistry [Op.join "d" "r", Op.join "d" "q", Op.join "c" "r"]).users "d"
        = some "q"
      ∧ BroadcastTargets
          (applyOps emptyRegistry [Op.join "d" "r", Op.join "d" "q", Op.join "c" "r"]) "c"
        = ["d"] := by
  decide

/-- C2: in every registry state, reachable or not, the sender is not among
the targets `broadcastToRoom` computes for it, under any event and payload,
however often the sender occurs in the member list of its room. -/
theorem C2_sender_not_in_targets (s : Registry) (c event : String) (data : JSONObject) :
    c ∉ BroadcastTargets s c
      ∧ List.count c ((broadcastToRoom s c event data).map Delivery.target) = 0 := by
  have h : c ∉ BroadcastTargets s c := by
    rw [BroadcastTargets_eq]
    simp
  refine ⟨h, ?_⟩
  rw [broadcastToRoom_eq_map_targets, List.map_map]
  have hid : (Delivery.target ∘ fun t => ({ target := t, event := event, data := data } : Delivery))
      = id := rfl
  rw [hid, List.map_id]
  exact List.count_eq_zero_of_not_mem h

/-! ### What Join writes -/

theorem handleJoin_ok (s : Registry) (c r : String) (data : JSONObject)
    (h : index data "roomId" = some (Value.string r)) :
    handleJoin s c data = Except.ok (Join s c r) := by
  simp [handleJoin, h, assertString]

theorem users_Join (s : Registry) (c r d : String) :
    (Join s c r).users d = if d = c then some r else s.users d := by
  simp [Join, mapSet]

theorem rooms_Join (s : Registry) (c r q : String) :
    (Join s c r).rooms q
      = if q = r then some { RoomID := (match s.rooms r with
                                        | some room => room.RoomID
                                        | none => r),
                             Users := members s r ++ [c] }
        else s.rooms q := by
  unfold Join members mapSet
  by_cases hq : q = r
  · cases h : s.rooms r <;> simp [hq, h]
  · simp [hq]

theorem members_Join (s : Registry) (c r q : String) :
    members (Join s c r) q = if q = r then members s r ++ [c] else members s q := by
  by_cases hq : q = r
  · simp [members, rooms_Join, hq]
  · simp only [members, rooms_Join, hq, if_false]

/-- C3, refuted as stated: joining the empty registry twice with the same
connection and room gives a state different from joining once, and the
connection then occurs twice in the member list. -/
theorem C3_second_join_duplicates :
    ∃ s1 s2 : Registry,
      handleJoin emptyRegistry "c" [("roomId", Value.string "r")] = Except.ok s1
        ∧ handleJoin s1 "c" [("roomId", Value.string "r")] = Except.ok s2
        ∧ s2 ≠ s1
        ∧ members s1 "r" = ["c"]
        ∧ members s2 "r" = ["c", "c"] := by
  refine ⟨Join emptyRegistry "c" "r", Join (Join emptyRegistry "c" "r") "c" "r",
    rfl, rfl, ?_, by decide, by decide⟩
  intro h
  have h2 := congrArg (fun t => members t "r") h
  revert h2
  decide

/-- C3, amended: a second `handleJoin` with the same connection and room
leaves the membership index, every other room and the targets of the joining
connection as the first call left them, and appends the connection once more
to the member list of the room, where it then occurs one more time than
after the first call, hence at least twice. -/
theorem C3_second_join_appends (s : Registry) (c r : String) :
    handleJoin s c [("roomId", Value.string r)] = Except.ok (Join s c r)
      ∧ handleJoin (Join s c r) c [("roomId", Value.string r)]
          = Except.ok (Join (Join s c r) c r)
      ∧ (Join (Join s c r) c r).users = (Join s c r).users
      ∧ (∀ q, (Join (Join s c r) c r).rooms q
            = if q = r then
                (((Join s c r).rooms r).map
                  fun room => { room with Users := room.Users ++ [c] })
              else (Join s c r).rooms q)
      ∧ members (Join (Join s c r) c r) r = members (Join s c r) r ++ [c]
      ∧ List.count c (members (Join (Join s c r) c r) r)
          = List.count c (members (Join s c r) r) + 1
      ∧ 2 ≤ List.count c (members (Join (Join s c r) c r) r)
      ∧ BroadcastTargets (Join (Join s c r) c r) c = BroadcastTargets (Join s c r) c := by
  have hm : members (Join (Join s c r) c r) r = members (Join s c r) r ++ [c] := by
    simp [members_Join]
  have hc : List.count c (members (Join (Join s c r) c r) r)
      = List.count c (members (Join s c r) r) + 1 := by
    rw [hm]; simp
  refine ⟨handleJoin_ok s c r _ (by simp [index]),
    handleJoin_ok _ c r _ (by simp [index]), ?_, ?_, hm, hc, ?_, ?_⟩
  · funext d
    by_cases hd : d = c <;> simp [users_Join, hd]
  · intro q
    by_cases hq : q = r
    · simp [rooms_Join, hq, members]
    · simp [rooms_Join, hq]
  · rw [hc]
    have h1 : List.count c (members (Join s c r) r) = List.count c (members s r) + 1 := by
      simp [members_Join]
    omega
  · rw [BroadcastTargets_eq, BroadcastTargets_eq]
    simp [usersLookup, users_Join, members_Join]

/-- C4, evaluated where it fails: c joins room a and then room b, d joins
room a, c leaves.  The leave clears c from room b only, and c is still the
target of d. -/
theorem C4_left_connection_still_targeted :
    BroadcastTargets
        (applyOps emptyRegistry
          [Op.join "c" "a", Op.join "c" "b", Op.join "d" "a", Op.leave "c"]) "d"
      = ["c"]
    ∧ (applyOps emptyRegistry
          [Op.join "c" "a", Op.join "c" "b", Op.join "d" "a", Op.leave "c"]).users "c"
      = none := by
  decide

/-- C5, evaluated where it fails: a joins the room whose name is the empty
string.  Connection b never joined and has no index entry, and its targets
are a. -/
theorem C5_unjoined_sender_reaches_empty_name_room :
    (applyOps emptyRegistry [Op.join "a" ""]).users "b" = none
      ∧ BroadcastTargets (applyOps emptyRegistry [Op.join "a" ""]) "b" = ["a"] := by
  decide

/-- C6, evaluated where it fails: c joins the room named by the empty
string, then room r, then leaves.  It has no index entry any more, and a
second leave still rewrites the member list of the empty-named room. -/
theorem C6_second_leave_changes_state :
    (applyOps emptyRegistry [Op.join "c" "", Op.join "c" "r", Op.leave "c"]).users "c" = none
      ∧ members (applyOps emptyRegistry [Op.join "c" "", Op.join "c" "r", Op.leave "c"]) ""
          = ["c"]
      ∧ members
          (handleDisconnect
            (applyOps emptyRegistry [Op.join "c" "", Op.join "c" "r", Op.leave "c"]) "c") ""
          = []
      ∧ handleDisconnect
          (applyOps emptyRegistry [Op.join "c" "", Op.join "c" "r", Op.leave "c"]) "c"
          ≠ applyOps emptyRegistry [Op.join "c" "", Op.join "c" "r", Op.leave "c"] := by
  refine ⟨by decide, by decide, by decide, ?_⟩
  intro h
  have h2 := congrArg (fun t => members t "") h
  revert h2
  decide

/-- C7, evaluated where it fails: after c joins room a and then room b it
is in the member lists of both. -/
theorem C7_connection_in_two_rooms :
    "c" ∈ members (applyOps emptyRegistry [Op.join "c" "a", Op.join "c" "b"]) "a"
      ∧ "c" ∈ members (applyOps emptyRegistry [Op.join "c" "a", Op.join "c" "b"]) "b"
      ∧ "a" ≠ "b" := by
  decide

/-! ## Router claims -/

theorem assertString_error (x : Option Value) (h : ∀ e, x ≠ some (Value.string e)) :
    assertString x = Except.error Fault.typeAssertion := by
  cases x with
  | none => rfl
  | some v =>
    cases v with
    | string e => exact absurd rfl (h e)
    | null => rfl
    | bool b => rfl
    | number n => rfl
    | array items => rfl
    | object fields => rfl

theorem assertObject_error (x : Option Value) (h : ∀ d, x ≠ some (Value.object d)) :
    assertObject x = Except.error Fault.typeAssertion := by
  cases x with
  | none => rfl
  | some v =>
    cases v with
    | object fields => exact absurd rfl (h fields)
    | null => rfl
    | bool b => rfl
    | number n => rfl
    | array items => rfl
    | string e => rfl

/-- C8: a negotiation message whose `data` binds the required key to the
string v is processed without fault, leaves the registry as it was, and
prints one delivery per element of `BroadcastTargets`, in that order, each
with the event name of the message and the payload holding that one key
bound to v. -/
theorem C8_negotiation_broadcast (s : Registry) (c event key v : String)
    (message data : JSONObject)
    (hk : (event, key) ∈ [("localDescription", "description"),
                          ("remoteDescription", "description"),
                          ("iceCandidate", "candidate"),
                          ("iceCandidateReply", "candidate")])
    (he : index message "event" = some (Value.string event))
    (hd : index message "data" = some (Value.object data))
    (hv : index data key = some (Value.string v)) :
    processMessage s c message
      = Except.ok (s, (BroadcastTargets s c).map
          (fun t => { target := t, event := event, data := [(key, Value.string v)] })) := by
  simp only [List.mem_cons, Prod.mk.injEq, List.mem_singleton, List.not_mem_nil, or_false] at hk
  rcases hk with ⟨h1, h2⟩ | ⟨h1, h2⟩ | ⟨h1, h2⟩ | ⟨h1, h2⟩
  · subst h1; subst h2
    simp +decide [processMessage, he, hd, assertString, assertObject, handleLocalDescription,
      relay, hv, broadcastToRoom_eq_map_targets]
  · subst h1; subst h2
    simp +decide [processMessage, he, hd, assertString, assertObject, handleRemoteDescription,
      relay, hv, broadcastToRoom_eq_map_targets]
  · subst h1; subst h2
    simp +decide [processMessage, he, hd, assertString, assertObject, handleIceCandidate,
      relay, hv, broadcastToRoom_eq_map_targets]
  · subst h1; subst h2
    simp +decide [processMessage, he, hd, assertString, assertObject, handleIceCandidateReply,
      relay, hv, broadcastToRoom_eq_map_targets]

/-- C8 at a concrete input: A, B and C are in room r1 and A sends a local
description. -/
theorem C8_negotiation_broadcast_witness :
    BroadcastTargets
        (applyOps emptyRegistry [Op.join "A" "r1", Op.join "B" "r1", Op.join "C" "r1"]) "A"
      = ["B", "C"]
    ∧ processMessage
        (applyOps emptyRegistry [Op.join "A" "r1", Op.join "B" "r1", Op.join "C" "r1"]) "A"
        [("event", Value.string "localDescription"),
         ("data", Value.object [("description", Value.string "sdpA")])]
      = Except.ok
          (applyOps emptyRegistry [Op.join "A" "r1", Op.join "B" "r1", Op.join "C" "r1"],
           (BroadcastTargets
              (applyOps emptyRegistry [Op.join "A" "r1", Op.join "B" "r1", Op.join "C" "r1"])
              "A").map
             (fun t => { target := t, event := "localDescription",
                         data := [("description", Value.string "sdpA")] })) :=
  ⟨by decide,
   C8_negotiation_broadcast _ "A" "localDescription" "description" "sdpA" _
     [("description", Value.string "sdpA")] (by simp) rfl rfl rfl⟩

theorem processMessage_malformed (s : Registry) (c : String) (m : JSONObject)
    (h : (∀ e, index m "event" ≠ some (Value.string e))
      ∨ (∀ d, index m "data" ≠ some (Value.object d))
      ∨ ∃ e d k, index m "event" = some (Value.string e)
          ∧ index m "data" = some (Value.object d)
          ∧ (e, k) ∈ [("join", "roomId"),
                      ("localDescription", "description"),
                      ("remoteDescription", "description"),
                      ("iceCandidate", "candidate"),
                      ("iceCandidateReply", "candidate")]
          ∧ ∀ v, index d k ≠ some (Value.string v)) :
    processMessage s c m = Except.error Fault.typeAssertion := by
  rcases h with h | h | ⟨e, d, k, he, hd, hk, hv⟩
  · simp [processMessage, assertString_error _ h]
  · cases hs : assertString (index m "event") with
    | error f => cases f; simp [processMessage, hs]
    | ok e => simp [processMessage, hs, assertObject_error _ h]
  · have hf := assertString_error _ hv
    simp only [List.mem_cons, Prod.mk.injEq, List.mem_singleton, List.not_mem_nil,
      or_false] at hk
    rcases hk with ⟨h1, h2⟩ | ⟨h1, h2⟩ | ⟨h1, h2⟩ | ⟨h1, h2⟩ | ⟨h1, h2⟩
    · subst h1; subst h2
      simp +decide [processMessage, he, hd, assertString, assertObject, handleJoin, hf]
    · subst h1; subst h2
      simp +decide [processMessage, he, hd, assertString, assertObject,
        handleLocalDescription, relay, hf]
    · subst h1; subst h2
      simp +decide [processMessage, he, hd, assertString, assertObject,
        handleRemoteDescription, relay, hf]
    · subst h1; subst h2
      simp +decide [processMessage, he, hd, assertString, assertObject,
        handleIceCandidate, relay, hf]
    · subst h1; subst h2
      simp +decide [processMessage, he, hd, assertString, assertObject,
        handleIceCandidateReply, relay, hf]

/-- C9: when the next read of connection c is a transport error, or a
message that is malformed (event absent or not a string, data absent or not
a mapping, or the required field of a recognised event absent or not a
string), the read loop ends there without reading further, nothing is
printed, and the registry afterwards is the one before with
`handleDisconnect` applied once. -/
theorem C9_cleanup_after_bad_read (s : Registry) (c : String) (r : ReadResult)
    (rest : List ReadResult)
    (h : r = ReadResult.error
      ∨ ∃ m, r = ReadResult.message m
          ∧ ((∀ e, index m "event" ≠ some (Value.string e))
            ∨ (∀ d, index m "data" ≠ some (Value.object d))
            ∨ ∃ e d k, index m "event" = some (Value.string e)
                ∧ index m "data" = some (Value.object d)
                ∧ (e, k) ∈ [("join", "roomId"),
                            ("localDescription", "description"),
                            ("remoteDescription", "description"),
                            ("iceCandidate", "candidate"),
                            ("iceCandidateReply", "candidate")]
                ∧ ∀ v, index d k ≠ some (Value.string v))) :
    (handleConnections s (some c) (r :: rest)).state = handleDisconnect s c
      ∧ (handleConnections s (some c) (r :: rest)).out = []
      ∧ (handleConnections s (some c) (r :: rest)).ending
          = (match r with
             | ReadResult.error => Ending.readError
             | ReadResult.message _ => Ending.fault)
      ∧ (readLoop s c (r :: rest)).state = s := by
  rcases h with h | ⟨m, hm, hbad⟩
  · subst h
    simp [handleConnections, readLoop]
  · subst hm
    have hp := processMessage_malformed s c m hbad
    simp [handleConnections, readLoop, hp]

/-- C9 at a concrete input: B is in room r1 with A and sends a message
without an event tag, followed by a well-formed join that is never read. -/
theorem C9_cleanup_after_bad_read_witness :
    (handleConnections (applyOps emptyRegistry [Op.join "A" "r1", Op.join "B" "r1"])
        (some "B")
        [ReadResult.message [("data", Value.object [])],
         ReadResult.message [("event", Value.string "join"),
                             ("data", Value.object [("roomId", Value.string "r2")])]]).state
      = handleDisconnect (applyOps emptyRegistry [Op.join "A" "r1", Op.join "B" "r1"]) "B" :=
  (C9_cleanup_after_bad_read _ "B" (ReadResult.message [("data", Value.object [])]) _
    (Or.inr ⟨_, rfl, Or.inl (fun e => by simp [index])⟩)).1

/-- C10, refuted as stated: a message with the unrecognised event tag ping
and no data field faults at the assertion on `message["data"]`; the loop ends
and the join that follows is never processed. -/
theorem C10_unknown_event_without_data_faults :
    processMessage emptyRegistry "c" [("event", Value.string "ping")]
        = Except.error Fault.typeAssertion
      ∧ (handleConnections emptyRegistry (some "c")
          [ReadResult.message [("event", Value.string "ping")],
           ReadResult.message [("event", Value.string "join"),
                               ("data", Value.object [("roomId", Value.string "r")])]]).ending
        = Ending.fault
      ∧ (handleConnections emptyRegistry (some "c")
          [ReadResult.message [("event", Value.string "ping")],
           ReadResult.message [("event", Value.string "join"),
                               ("data", Value.object [("roomId", Value.string "r")])]]).state.rooms
          "r"
        = none
      ∧ (handleConnections emptyRegistry (some "c")
          [ReadResult.message [("event", Value.string "ping"), ("data", Value.object [])],
           ReadResult.message [("event", Value.string "join"),
                               ("data", Value.object [("roomId", Value.string "r")])]]).state.rooms
          "r"
        = some { RoomID := "r", Users := [] } := by
  refine ⟨rfl, rfl, ?_, ?_⟩ <;> decide

/-- C10, amended: a message whose event tag is a string other than the five
recognised ones and whose data field is a mapping raises no fault, prints
nothing, leaves the registry unchanged, and the read loop goes on with the
next read. -/
theorem C10_unknown_event_ignored (s : Registry) (c event : String)
    (message data : JSONObject) (rest : List ReadResult)
    (he : index message "event" = some (Value.string event))
    (hd : index message "data" = some (Value.object data))
    (hne : event ∉ ["join", "localDescription", "remoteDescription", "iceCandidate",
                    "iceCandidateReply"]) :
    processMessage s c message = Except.ok (s, [])
      ∧ readLoop s c (ReadResult.message message :: rest) = readLoop s c rest
      ∧ handleConnections s (some c) (ReadResult.message message :: rest)
          = handleConnections s (some c) rest := by
  simp only [List.mem_cons, List.mem_singleton, List.not_mem_nil, or_false, not_or] at hne
  obtain ⟨h1, h2, h3, h4, h5⟩ := hne
  have hp : processMessage s c message = Except.ok (s, []) := by
    simp [processMessage, he, hd, assertString, assertObject, h1, h2, h3, h4, h5]
  have hl : readLoop s c (ReadResult.message message :: rest) = readLoop s c rest := by
    simp [readLoop, hp]
  refine ⟨hp, hl, ?_⟩
  simp [handleConnections, hl]

/-- C10 at a concrete input: B, in room r1 with A, sends a ping with an
empty data mapping and then a local description. -/
theorem C10_unknown_event_ignored_witness :
    processMessage (applyOps emptyRegistry [Op.join "A" "r1", Op.join "B" "r1"]) "B"
        [("event", Value.string "ping"), ("data", Value.object [])]
      = Except.ok (applyOps emptyRegistry [Op.join "A" "r1", Op.join "B" "r1"], []) :=
  (C10_unknown_event_ignored _ "B" "ping"
    [("event", Value.string "ping"), ("data", Value.object [])] []
    [ReadResult.message [("event", Value.string "localDescription"),
                         ("data", Value.object [("description", Value.string "sdpB")])]]
    rfl rfl (by decide)).1

/-! ## The registry away from the two defects

The failures of C1, C4, C6 and C7 need a connection that joins a room while
it is still in another one, and those of C5 and C6 need a room whose name is
the empty string.  The lemmas below show the code behaving as those claims
say when neither happens. -/

theorem MembersIndexed_emptyRegistry : MembersIndexed emptyRegistry := by
  intro q d h
  simp [members, emptyRegistry] at h

theorem MembersIndexed_Join (s : Registry) (c r : String) (hs : MembersIndexed s)
    (hc : s.users c = none ∨ s.users c = some r) : MembersIndexed (Join s c r) := by
  intro q d h
  rw [members_Join] at h
  rw [users_Join]
  by_cases hq : q = r
  · subst hq
    rw [if_pos rfl] at h
    by_cases hd : d = c
    · simp [hd]
    · rw [if_neg hd]
      rcases List.mem_append.mp h with h1 | h1
      · exact hs q d h1
      · exact absurd (List.mem_singleton.mp h1) hd
  · rw [if_neg hq] at h
    have h1 := hs q d h
    by_cases hd : d = c
    · subst hd
      rcases hc with hc | hc
      · rw [hc] at h1; cases h1
      · rw [hc] at h1
        exact absurd (Option.some.inj h1).symm hq
    · rw [if_neg hd]
      exact h1

theorem MembersIndexed_handleDisconnect (s : Registry) (c : String) (hs : MembersIndexed s) :
    MembersIndexed (handleDisconnect s c) := by
  intro q d h
  have h0 := hs q d (mem_members_of_mem_handleDisconnect s c q d h)
  rw [users_handleDisconnect]
  by_cases hd : d = c
  · subst hd
    have hq : q = usersLookup s d := by simp [usersLookup, h0]
    rw [members_handleDisconnect, if_pos hq] at h
    simp at h
  · rw [if_neg hd]
    exact h0

theorem one_room_of_MembersIndexed (s : Registry) (d q1 q2 : String) (hs : MembersIndexed s)
    (h1 : d ∈ members s q1) (h2 : d ∈ members s q2) : q1 = q2 := by
  have e1 := hs q1 d h1
  have e2 := hs q2 d h2
  rw [e1] at e2
  exact Option.some.inj e2

theorem targets_indexed_of_MembersIndexed (s : Registry) (c r d : String)
    (hs : MembersIndexed s) (hc : s.users c = some r) (hd : d ∈ BroadcastTargets s c) :
    d ≠ c ∧ s.users d = some r := by
  rw [BroadcastTargets_eq] at hd
  have hr : usersLookup s c = r := by simp [usersLookup, hc]
  rw [hr] at hd
  obtain ⟨h1, h2⟩ := List.mem_filter.mp hd
  exact ⟨by simpa using h2, hs r d h1⟩

theorem not_target_after_leave_of_MembersIndexed (s : Registry) (c d : String)
    (hs : MembersIndexed s) : c ∉ BroadcastTargets (handleDisconnect s c) d := by
  intro h
  rw [BroadcastTargets_eq] at h
  have h1 := (List.mem_filter.mp h).1
  have h2 := MembersIndexed_handleDisconnect s c hs _ c h1
  rw [users_handleDisconnect, if_pos rfl] at h2
  cases h2

theorem targets_nil_of_no_entry (s : Registry) (c : String) (hc : s.users c = none)
    (h0 : s.rooms "" = none) : BroadcastTargets s c = [] := by
  rw [BroadcastTargets_eq]
  have hr : usersLookup s c = "" := by simp [usersLookup, hc]
  simp [hr, members, h0]

theorem handleDisconnect_noop (s : Registry) (c : String) (hc : s.users c = none)
    (hm : c ∉ members s "") : handleDisconnect s c = s := by
  have hr : usersLookup s c = "" := by simp [usersLookup, hc]
  have hu : (handleDisconnect s c).users = s.users := by
    funext d
    rw [users_handleDisconnect]
    by_cases hd : d = c
    · simp [hd, hc]
    · simp [hd]
  have hro : (handleDisconnect s c).rooms = s.rooms := by
    funext q
    rw [rooms_handleDisconnect, hr]
    by_cases hq : q = ""
    · subst hq
      rw [if_pos rfl]
      cases h : s.rooms "" with
      | none => rfl
      | some room =>
        have hf : room.Users.filter (fun u => decide (u ≠ c)) = room.Users := by
          apply List.filter_eq_self.mpr
          intro u hu2
          have : u ≠ c := by
            intro e
            subst e
            exact hm (by simpa [members, h] using hu2)
          simpa using this
        simp only [Option.map_some', hf]
    · rw [if_neg hq]
  cases hs : handleDisconnect s c with
  | mk rooms2 users2 =>
    rw [hs] at hro hu
    cases s
    simp only [Registry.mk.injEq]
    exact ⟨hro, hu⟩

theorem handleDisconnect_idempotent_of_not_stale (s : Registry) (c : String)
    (hm : c ∉ members s "" ∨ usersLookup s c = "") :
    handleDisconnect (handleDisconnect s c) c = handleDisconnect s c := by
  apply handleDisconnect_noop
  · rw [users_handleDisconnect, if_pos rfl]
  · rw [members_handleDisconnect]
    rcases hm with hm | hm
    · by_cases hq : "" = usersLookup s c
      · rw [if_pos hq]
        intro h
        exact hm (List.mem_filter.mp h).1
      · rw [if_neg hq]
        exact hm
    · rw [if_pos hm.symm]
      simp

/-! ## Scenarios -/

/-- C11: for every room name r and pairwise distinct connections A, B and C,
after the three joins to r from the empty registry the targets of A are B
and then C, each once, A is not among them, and a local description sent
by A is printed for exactly those two. -/
theorem C11_three_peers_broadcast (r A B C v : String)
    (hAB : A ≠ B) (hAC : A ≠ C) (hBC : B ≠ C) :
    BroadcastTargets (applyOps emptyRegistry [Op.join A r, Op.join B r, Op.join C r]) A
        = [B, C]
      ∧ List.count B
          (BroadcastTargets (applyOps emptyRegistry [Op.join A r, Op.join B r, Op.join C r]) A)
        = 1
      ∧ List.count C
          (BroadcastTargets (applyOps emptyRegistry [Op.join A r, Op.join B r, Op.join C r]) A)
        = 1
      ∧ List.count A
          (BroadcastTargets (applyOps emptyRegistry [Op.join A r, Op.join B r, Op.join C r]) A)
        = 0
      ∧ processMessage (applyOps emptyRegistry [Op.join A r, Op.join B r, Op.join C r]) A
          [("event", Value.string "localDescription"),
           ("data", Value.object [("description", Value.string v)])]
        = Except.ok
            (applyOps emptyRegistry [Op.join A r, Op.join B r, Op.join C r],
             [{ target := B, event := "localDescription",
                data := [("description", Value.string v)] },
              { target := C, event := "localDescription",
                data := [("description", Value.string v)] }]) := by
  have hBA : B ≠ A := fun h => hAB h.symm
  have hCA : C ≠ A := fun h => hAC h.symm
  have hCB : C ≠ B := fun h => hBC h.symm
  have hm : members emptyRegistry r = [] := rfl
  have ht : BroadcastTargets
      (applyOps emptyRegistry [Op.join A r, Op.join B r, Op.join C r]) A = [B, C] := by
    rw [BroadcastTargets_eq]
    simp [applyOps, applyOp, usersLookup, users_Join, members_Join, hm, hAB, hAC, hBA, hCA]
  refine ⟨ht, ?_, ?_, ?_, ?_⟩
  · rw [ht]; simp [hBC, hCB]
  · rw [ht]; simp [hBC, hCB]
  · rw [ht]; simp [hAB, hAC, hBA, hCA]
  · have hp : processMessage (applyOps emptyRegistry [Op.join A r, Op.join B r, Op.join C r]) A
        [("event", Value.string "localDescription"),
         ("data", Value.object [("description", Value.string v)])]
        = Except.ok
            (applyOps emptyRegistry [Op.join A r, Op.join B r, Op.join C r],
             (BroadcastTargets
                (applyOps emptyRegistry [Op.join A r, Op.join B r, Op.join C r]) A).map
               (fun t => { target := t, event := "localDescription",
                           data := [("description", Value.string v)] })) := by
      simp +decide [processMessage, index, assertString, assertObject, handleLocalDescription,
        relay, broadcastToRoom_eq_map_targets]
    rw [hp, ht]
    rfl

/-- C11 at the spec's scenario: A, B and C join room r1 and A sends the
description sdpA. -/
theorem C11_three_peers_broadcast_witness :
    BroadcastTargets
        (applyOps emptyRegistry [Op.join "A" "r1", Op.join "B" "r1", Op.join "C" "r1"]) "A"
      = ["B", "C"] :=
  (C11_three_peers_broadcast "r1" "A" "B" "C" "sdpA" (by decide) (by decide) (by decide)).1

/-- C12: for distinct room names r1, r2 and distinct connections A, B, after
A joins r1 and B joins r2 from the empty registry, the targets of A and of B
are empty, and an ice candidate sent by either is processed without fault,
prints nothing and leaves the registry unchanged. -/
theorem C12_rooms_isolated (r1 r2 A B v : String) (hr : r1 ≠ r2) (hAB : A ≠ B) :
    BroadcastTargets (applyOps emptyRegistry [Op.join A r1, Op.join B r2]) A = []
      ∧ BroadcastTargets (applyOps emptyRegistry [Op.join A r1, Op.join B r2]) B = []
      ∧ processMessage (applyOps emptyRegistry [Op.join A r1, Op.join B r2]) A
          [("event", Value.string "iceCandidate"),
           ("data", Value.object [("candidate", Value.string v)])]
        = Except.ok (applyOps emptyRegistry [Op.join A r1, Op.join B r2], [])
      ∧ processMessage (applyOps emptyRegistry [Op.join A r1, Op.join B r2]) B
          [("event", Value.string "iceCandidate"),
           ("data", Value.object [("candidate", Value.string v)])]
        = Except.ok (applyOps emptyRegistry [Op.join A r1, Op.join B r2], []) := by
  have hBA : B ≠ A := fun h => hAB h.symm
  have hr2 : r2 ≠ r1 := fun h => hr h.symm
  have hm : ∀ q, members emptyRegistry q = [] := fun _ => rfl
  have hA : BroadcastTargets (applyOps emptyRegistry [Op.join A r1, Op.join B r2]) A = [] := by
    rw [BroadcastTargets_eq]
    simp [applyOps, applyOp, usersLookup, users_Join, members_Join, hm, hAB, hr]
  have hB : BroadcastTargets (applyOps emptyRegistry [Op.join A r1, Op.join B r2]) B = [] := by
    rw [BroadcastTargets_eq]
    simp [applyOps, applyOp, usersLookup, users_Join, members_Join, hm, hBA, hr2]
  refine ⟨hA, hB, ?_, ?_⟩
  · simp +decide [processMessage, index, assertString, assertObject, handleIceCandidate,
      relay, broadcastToRoom_eq_map_targets, hA]
  · simp +decide [processMessage, index, assertString, assertObject, handleIceCandidate,
      relay, broadcastToRoom_eq_map_targets, hB]

/-- C12 at the spec's scenario: A joins r1, B joins r2, A sends an ice
candidate. -/
theorem C12_rooms_isolated_witness :
    BroadcastTargets (applyOps emptyRegistry [Op.join "A" "r1", Op.join "B" "r2"]) "A" = []
      ∧ BroadcastTargets (applyOps emptyRegistry [Op.join "A" "r1", Op.join "B" "r2"]) "B"
        = [] :=
  ⟨(C12_rooms_isolated "r1" "r2" "A" "B" "cand" (by decide) (by decide)).1,
   (C12_rooms_isolated "r1" "r2" "A" "B" "cand" (by decide) (by decide)).2.1⟩

/-! ## Frame and order of Leave -/

theorem count_filter_ne (c d : String) (h : d ≠ c) (xs : List String) :
    List.count d (xs.filter (fun u => decide (u ≠ c))) = List.count d xs := by
  apply List.count_filter
  simpa using h

/-- C13: `handleDisconnect` for c leaves the index entry of every other
connection d as it was; in every room it leaves the number of occurrences
of d and the order of all members other than c as they were, the new
member list being a sublist of the old one; and a connection that only
disconnects prints no delivery. -/
theorem C13_leave_frame (s : Registry) (c d : String) (h : d ≠ c) :
    (handleDisconnect s c).users d = s.users d
      ∧ (∀ q, List.count d (members (handleDisconnect s c) q) = List.count d (members s q))
      ∧ (∀ q, (members (handleDisconnect s c) q).filter (fun u => decide (u ≠ c))
            = (members s q).filter (fun u => decide (u ≠ c)))
      ∧ (∀ q, List.Sublist (members (handleDisconnect s c) q) (members s q))
      ∧ (handleConnections s (some c) [ReadResult.error]).out = []
      ∧ (handleConnections s (some c) [ReadResult.error]).state = handleDisconnect s c := by
  refine ⟨?_, ?_, ?_, ?_, rfl, rfl⟩
  · rw [users_handleDisconnect, if_neg h]
  · intro q
    rw [members_handleDisconnect]
    by_cases hq : q = usersLookup s c
    · rw [if_pos hq]
      exact count_filter_ne c d h _
    · rw [if_neg hq]
  · intro q
    rw [members_handleDisconnect]
    by_cases hq : q = usersLookup s c
    · rw [if_pos hq, List.filter_filter]
      simp
    · rw [if_neg hq]
  · intro q
    rw [members_handleDisconnect]
    by_cases hq : q = usersLookup s c
    · rw [if_pos hq]
      exact List.filter_sublist _
    · rw [if_neg hq]

/-- C13 at a concrete input: A, B, A and C are listed in room r1 and A
disconnects. -/
theorem C13_leave_frame_witness :
    (handleDisconnect
        (applyOps emptyRegistry
          [Op.join "A" "r1", Op.join "B" "r1", Op.join "A" "r1", Op.join "C" "r1"]) "A").users
        "B"
      = (applyOps emptyRegistry
          [Op.join "A" "r1", Op.join "B" "r1", Op.join "A" "r1", Op.join "C" "r1"]).users "B"
    ∧ members
        (handleDisconnect
          (applyOps emptyRegistry
            [Op.join "A" "r1", Op.join "B" "r1", Op.join "A" "r1", Op.join "C" "r1"]) "A") "r1"
      = ["B", "C"] :=
  ⟨(C13_leave_frame _ "A" "B" (by decide)).1, by decide⟩

/-- C19: when the index entries of two distinct connections c and d name the
same room, the targets of d after `handleDisconnect` for c are the targets
of d before with every occurrence of c filtered out, the others in their
old order. -/
theorem C19_leave_keeps_order (s : Registry) (c d r : String) (h : c ≠ d)
    (hc : s.users c = some r) (hd : s.users d = some r) :
    BroadcastTargets (handleDisconnect s c) d
      = (BroadcastTargets s d).filter (fun u => decide (u ≠ c)) := by
  have hdc : d ≠ c := fun e => h e.symm
  have h1 : usersLookup (handleDisconnect s c) d = r := by
    simp [usersLookup, users_handleDisconnect, hdc, hd]
  have h2 : usersLookup s d = r := by simp [usersLookup, hd]
  have h3 : usersLookup s c = r := by simp [usersLookup, hc]
  rw [BroadcastTargets_eq, BroadcastTargets_eq, h1, h2, members_handleDisconnect, h3,
    if_pos rfl, List.filter_filter, List.filter_filter]
  congr 1
  funext u
  exact Bool.and_comm _ _

/-- C19 at a concrete input: room r1 lists A, B, C, B and the connection B
disconnects; the targets of A go from B, C, B to C. -/
theorem C19_leave_keeps_order_witness :
    BroadcastTargets
        (applyOps emptyRegistry
          [Op.join "A" "r1", Op.join "B" "r1", Op.join "C" "r1", Op.join "B" "r1"]) "A"
      = ["B", "C", "B"]
    ∧ BroadcastTargets
        (handleDisconnect
          (applyOps emptyRegistry
            [Op.join "A" "r1", Op.join "B" "r1", Op.join "C" "r1", Op.join "B" "r1"]) "B") "A"
      = (BroadcastTargets
          (applyOps emptyRegistry
            [Op.join "A" "r1", Op.join "B" "r1", Op.join "C" "r1", Op.join "B" "r1"])
          "A").filter (fun u => decide (u ≠ "B")) :=
  ⟨by decide, C19_leave_keeps_order _ "B" "A" "r1" (by decide) (by decide) (by decide)⟩

/-! ## The index is backed by the room table -/

theorem IndexConsistent_emptyRegistry : IndexConsistent emptyRegistry := by
  intro c r h
  simp [emptyRegistry] at h

theorem IndexConsistent_Join (s : Registry) (c0 r0 : String) (hs : IndexConsistent s) :
    IndexConsistent (Join s c0 r0) := by
  intro c r h
  rw [users_Join] at h
  rw [rooms_Join]
  by_cases hc : c = c0
  · rw [if_pos hc] at h
    have hr : r = r0 := (Option.some.inj h).symm
    rw [if_pos hr]
    exact ⟨_, rfl, by simp [hc]⟩
  · rw [if_neg hc] at h
    obtain ⟨room, h1, h2⟩ := hs c r h
    by_cases hr : r = r0
    · rw [if_pos hr]
      refine ⟨_, rfl, ?_⟩
      have hm : members s r0 = room.Users := by
        rw [hr] at h1
        simp [members, h1]
      simp [hm, h2]
    · rw [if_neg hr]
      exact ⟨room, h1, h2⟩

theorem IndexConsistent_handleDisconnect (s : Registry) (c0 : String)
    (hs : IndexConsistent s) : IndexConsistent (handleDisconnect s c0) := by
  intro c r h
  rw [users_handleDisconnect] at h
  by_cases hc : c = c0
  · rw [if_pos hc] at h
    cases h
  · rw [if_neg hc] at h
    obtain ⟨room, h1, h2⟩ := hs c r h
    rw [rooms_handleDisconnect]
    by_cases hr : r = usersLookup s c0
    · rw [if_pos hr, h1]
      refine ⟨_, rfl, ?_⟩
      simp [h2, hc]
    · rw [if_neg hr]
      exact ⟨room, h1, h2⟩

theorem IndexConsistent_applyOps (ops : List Op) (s : Registry) (hs : IndexConsistent s) :
    IndexConsistent (applyOps s ops) := by
  induction ops generalizing s with
  | nil => exact hs
  | cons op rest ih =>
    have hstep : IndexConsistent (applyOp s op) := by
      cases op with
      | join c r => exact IndexConsistent_Join s c r hs
      | leave c => exact IndexConsistent_handleDisconnect s c hs
    exact ih (applyOp s op) hstep

/-- C18: in every state the empty registry reaches by Join and Leave
operations, a membership-index entry of c naming room r means that room r
is in the room table and c occurs in its member list. -/
theorem C18_index_backed_by_room (s : Registry) (hs : Reachable s) (c r : String)
    (hc : s.users c = some r) :
    ∃ room, s.rooms r = some room ∧ c ∈ room.Users := by
  obtain ⟨ops, rfl⟩ := hs
  exact IndexConsistent_applyOps ops emptyRegistry IndexConsistent_emptyRegistry c r hc

/-- C18 at a concrete input: A joins r1 and then r2, B joins r2, B leaves;
the entry of A names r2, which exists and lists A. -/
theorem C18_index_backed_by_room_witness :
    (applyOps emptyRegistry
        [Op.join "A" "r1", Op.join "A" "r2", Op.join "B" "r2", Op.leave "B"]).users "A"
      = some "r2"
    ∧ ∃ room,
        (applyOps emptyRegistry
          [Op.join "A" "r1", Op.join "A" "r2", Op.join "B" "r2", Op.leave "B"]).rooms "r2"
          = some room
        ∧ "A" ∈ room.Users :=
  ⟨by decide,
   C18_index_backed_by_room _
     ⟨[Op.join "A" "r1", Op.join "A" "r2", Op.join "B" "r2", Op.leave "B"], rfl⟩
     "A" "r2" (by decide)⟩

/-! ## Empty rooms and absent rooms -/

theorem members_eq_of_SameUpToEmptyRooms (s t : Registry) (h : SameUpToEmptyRooms s t)
    (q : String) : members s q = members t q := by
  rcases h.2 q with h1 | ⟨h1, h2⟩ | ⟨h1, h2⟩
  · simp [members, h1]
  · simp [members, h1, h2]
  · simp [members, h1, h2]

theorem BroadcastTargets_eq_of_SameUpToEmptyRooms (s t : Registry)
    (h : SameUpToEmptyRooms s t) (c : String) : BroadcastTargets s c = BroadcastTargets t c := by
  rw [BroadcastTargets_eq, BroadcastTargets_eq]
  have hl : usersLookup s c = usersLookup t c := by simp [usersLookup, h.1]
  rw [hl, members_eq_of_SameUpToEmptyRooms s t h]

theorem SameUpToEmptyRooms_Join (s t : Registry) (h : SameUpToEmptyRooms s t) (c r : String) :
    SameUpToEmptyRooms (Join s c r) (Join t c r) := by
  refine ⟨?_, ?_⟩
  · funext d
    rw [users_Join, users_Join, h.1]
  · intro q
    rw [rooms_Join, rooms_Join]
    by_cases hq : q = r
    · rw [if_pos hq, if_pos hq]
      left
      rcases h.2 r with h1 | ⟨h1, h2⟩ | ⟨h1, h2⟩
      · simp [members, h1]
      · simp [members, h1, h2]
      · simp [members, h1, h2]
    · rw [if_neg hq, if_neg hq]
      exact h.2 q

theorem SameUpToEmptyRooms_handleDisconnect (s t : Registry) (h : SameUpToEmptyRooms s t)
    (c : String) : SameUpToEmptyRooms (handleDisconnect s c) (handleDisconnect t c) := by
  have hl : usersLookup s c = usersLookup t c := by simp [usersLookup, h.1]
  refine ⟨?_, ?_⟩
  · funext d
    rw [users_handleDisconnect, users_handleDisconnect, h.1]
  · intro q
    rw [rooms_handleDisconnect, rooms_handleDisconnect, hl]
    by_cases hq : q = usersLookup t c
    · rw [if_pos hq, if_pos hq]
      rcases h.2 q with h1 | ⟨h1, h2⟩ | ⟨h1, h2⟩
      · left; rw [h1]
      · right; left; simp [h1, h2]
      · right; right; simp [h1, h2]
    · rw [if_neg hq, if_neg hq]
      exact h.2 q

theorem runActions_of_SameUpToEmptyRooms (acts : List Action) (s t : Registry)
    (h : SameUpToEmptyRooms s t) :
    (runActions s acts).2 = (runActions t acts).2
      ∧ SameUpToEmptyRooms (runActions s acts).1 (runActions t acts).1 := by
  induction acts generalizing s t with
  | nil => exact ⟨rfl, h⟩
  | cons a rest ih =>
    cases a with
    | join c r => exact ih _ _ (SameUpToEmptyRooms_Join s t h c r)
    | leave c => exact ih _ _ (SameUpToEmptyRooms_handleDisconnect s t h c)
    | broadcast c =>
      obtain ⟨h1, h2⟩ := ih s t h
      refine ⟨?_, h2⟩
      simp only [runActions]
      rw [h1, BroadcastTargets_eq_of_SameUpToEmptyRooms s t h c]

/-- C14: if two registries have the same index and the same room under
every name but r, where the first holds the room r with an empty member list
and the second holds nothing, then every finite sequence of joins, leaves
and broadcasts yields the same target sequences from both, and the two
final registries again differ at most in the presence of empty rooms. -/
theorem C14_empty_room_equivalent (s t : Registry) (r : String) (acts : List Action)
    (hu : s.users = t.users)
    (hs : s.rooms r = some { RoomID := r, Users := [] })
    (ht : t.rooms r = none)
    (hq : ∀ q, q ≠ r → s.rooms q = t.rooms q) :
    (runActions s acts).2 = (runActions t acts).2
      ∧ SameUpToEmptyRooms (runActions s acts).1 (runActions t acts).1 := by
  apply runActions_of_SameUpToEmptyRooms
  refine ⟨hu, ?_⟩
  intro q
  by_cases h : q = r
  · subst h
    exact Or.inr (Or.inl ⟨hs, ht⟩)
  · exact Or.inl (hq q h)

/-- C14 at a concrete input: the registry after A joined and left r1 against
the empty registry, under a join of B, a broadcast, a join of C, a broadcast
and a leave. -/
theorem C14_empty_room_equivalent_witness :
    (runActions (applyOps emptyRegistry [Op.join "A" "r1", Op.leave "A"])
        [Action.join "B" "r1", Action.broadcast "B", Action.join "C" "r1",
         Action.broadcast "B", Action.leave "C"]).2
      = (runActions emptyRegistry
        [Action.join "B" "r1", Action.broadcast "B", Action.join "C" "r1",
         Action.broadcast "B", Action.leave "C"]).2
    ∧ (runActions emptyRegistry
        [Action.join "B" "r1", Action.broadcast "B", Action.join "C" "r1",
         Action.broadcast "B", Action.leave "C"]).2
      = [[], ["C"]] :=
  ⟨(C14_empty_room_equivalent (applyOps emptyRegistry [Op.join "A" "r1", Op.leave "A"])
      emptyRegistry "r1" _
      (by funext d; simp [applyOps, applyOp, users_handleDisconnect, users_Join, emptyRegistry])
      (by decide) rfl
      (by
        intro q hq
        simp [applyOps, applyOp, rooms_handleDisconnect, rooms_Join, usersLookup, users_Join,
          hq])).1,
   by decide⟩

/-! ## Rooms are never removed -/

theorem roomName_injective : Function.Injective roomName := by
  intro i j h
  have h1 := congrArg (fun x => x.data.length) h
  simpa [roomName] using h1

theorem applyOps_append (s : Registry) (xs ys : List Op) :
    applyOps s (xs ++ ys) = applyOps (applyOps s xs) ys := by
  simp [applyOps, List.foldl_append]

theorem rooms_leakOps (k : Nat) (q : String) :
    (applyOps emptyRegistry (leakOps k)).rooms q
      = if q ∈ (List.range k).map roomName then some { RoomID := q, Users := [] }
        else none := by
  induction k generalizing q with
  | zero => simp [leakOps, applyOps, emptyRegistry]
  | succ k ih =>
    have hnew : roomName k ∉ (List.range k).map roomName := by
      intro hmem
      obtain ⟨i, hi, he⟩ := List.mem_map.mp hmem
      have hik : i = k := roomName_injective he
      rw [hik] at hi
      simp at hi
    have hnone : (applyOps emptyRegistry (leakOps k)).rooms (roomName k) = none := by
      rw [ih, if_neg hnew]
    have hstep : applyOps emptyRegistry (leakOps (k + 1))
        = handleDisconnect
            (Join (applyOps emptyRegistry (leakOps k)) (roomName k) (roomName k))
            (roomName k) := by
      simp [leakOps, applyOps_append, applyOps, applyOp]
    have hl : usersLookup
        (Join (applyOps emptyRegistry (leakOps k)) (roomName k) (roomName k)) (roomName k)
        = roomName k := by
      simp [usersLookup, users_Join]
    rw [hstep, rooms_handleDisconnect, hl, rooms_Join]
    by_cases hq : q = roomName k
    · subst hq
      simp [hnone, members, List.range_succ]
    · rw [if_neg hq, if_neg hq, ih]
      have hiff : q ∈ (List.range (k + 1)).map roomName ↔ q ∈ (List.range k).map roomName := by
        simp only [List.range_succ, List.map_append, List.mem_append, List.map_cons,
          List.map_nil, List.mem_singleton]
        constructor
        · rintro (h | h)
          · exact h
          · exact absurd h hq
        · exact Or.inl
      by_cases hm : q ∈ (List.range k).map roomName
      · rw [if_pos hm, if_pos (hiff.mpr hm)]
      · rw [if_neg hm, if_neg (fun h => hm (hiff.mp h))]

theorem leak_names (n : Nat) :
    ((List.range (n + 1)).map roomName).Nodup
      ∧ ((List.range (n + 1)).map roomName).length = n + 1
      ∧ ∀ q ∈ (List.range (n + 1)).map roomName,
          (applyOps emptyRegistry (leakOps (n + 1))).rooms q
            = some { RoomID := q, Users := [] } := by
  refine ⟨(List.nodup_range (n + 1)).map roomName_injective, by simp, ?_⟩
  intro q hq
  rw [rooms_leakOps, if_pos hq]

/-- C15, refuted: no number bounds the empty rooms of every reachable state. -/
theorem C15_no_bound_on_empty_rooms :
    ¬ ∃ n : Nat, ∀ s : Registry, Reachable s → EmptyRoomsAtMost s n := by
  rintro ⟨n, hn⟩
  obtain ⟨h1, h2, h3⟩ := leak_names n
  have hle := hn (applyOps emptyRegistry (leakOps (n + 1))) ⟨_, rfl⟩
    ((List.range (n + 1)).map roomName) h1 (fun q hq => ⟨_, h3 q hq, rfl⟩)
  omega

/-- C15, amended: the code never removes a room, and empty rooms accumulate
without bound: for every n the empty registry reaches, by Join and Leave
operations, a state whose room table holds n + 1 rooms of different names
with an empty member list. -/
theorem C15_empty_rooms_accumulate (n : Nat) :
    ∃ (s : Registry) (names : List String),
      Reachable s ∧ names.Nodup ∧ names.length = n + 1
        ∧ (∀ q ∈ names, s.rooms q = some { RoomID := q, Users := [] })
        ∧ ¬ EmptyRoomsAtMost s n := by
  obtain ⟨h1, h2, h3⟩ := leak_names n
  refine ⟨applyOps emptyRegistry (leakOps (n + 1)), (List.range (n + 1)).map roomName,
    ⟨_, rfl⟩, h1, h2, h3, ?_⟩
  intro hb
  have hle := hb ((List.range (n + 1)).map roomName) h1 (fun q hq => ⟨_, h3 q hq, rfl⟩)
  omega

theorem rooms_persist (s : Registry) (op : Op) (q : String)
    (h : (s.rooms q).isSome = true) : ((applyOp s op).rooms q).isSome = true := by
  cases op with
  | join c r =>
    simp only [applyOp, rooms_Join]
    by_cases hq : q = r
    · simp [hq]
    · simpa [hq] using h
  | leave c =>
    simp only [applyOp, rooms_handleDisconnect]
    by_cases hq : q = usersLookup s c
    · rw [if_pos hq]
      simpa using h
    · rw [if_neg hq]
      exact h

/-! ## The relayed payload -/

/-- C16, refuted as stated: A and B are in room r1 and A sends a local
description whose data carries the extra key sdpMid.  B is handed a payload
with the description alone, which is not the inbound mapping. -/
theorem C16_extra_keys_dropped :
    processMessage (applyOps emptyRegistry [Op.join "A" "r1", Op.join "B" "r1"]) "A"
        [("event", Value.string "localDescription"),
         ("data", Value.object [("description", Value.string "sdpA"),
                                ("sdpMid", Value.string "0")])]
      = Except.ok
          (applyOps emptyRegistry [Op.join "A" "r1", Op.join "B" "r1"],
           [{ target := "B", event := "localDescription",
              data := [("description", Value.string "sdpA")] }])
    ∧ ([("description", Value.string "sdpA")] : JSONObject)
      ≠ [("description", Value.string "sdpA"), ("sdpMid", Value.string "0")]
    ∧ index [("description", Value.string "sdpA")] "sdpMid" = none
    ∧ index [("description", Value.string "sdpA"), ("sdpMid", Value.string "0")] "sdpMid"
      = some (Value.string "0") := by
  refine ⟨rfl, ?_, rfl, rfl⟩
  intro h
  have hlen := congrArg List.length h
  simp at hlen

/-- C16, amended: for each of the four negotiation events and every inbound
data mapping that binds the required key to a string v, every delivery
carries the event name of the message and a payload that holds the required
key bound to v and no other key; additional keys of the inbound mapping are
not relayed. -/
theorem C16_payload_rebuilt (s : Registry) (c event key v : String)
    (message data : JSONObject)
    (hk : (event, key) ∈ [("localDescription", "description"),
                          ("remoteDescription", "description"),
                          ("iceCandidate", "candidate"),
                          ("iceCandidateReply", "candidate")])
    (he : index message "event" = some (Value.string event))
    (hd : index message "data" = some (Value.object data))
    (hv : index data key = some (Value.string v)) :
    ∃ out, processMessage s c message = Except.ok (s, out)
      ∧ out.map Delivery.target = BroadcastTargets s c
      ∧ ∀ d ∈ out, d.event = event
          ∧ d.data = [(key, Value.string v)]
          ∧ index d.data key = index data key
          ∧ ∀ k, k ≠ key → index d.data k = none := by
  have hp : processMessage s c message
      = Except.ok (s, (BroadcastTargets s c).map
          (fun t => { target := t, event := event, data := [(key, Value.string v)] })) := by
    simp only [List.mem_cons, Prod.mk.injEq, List.mem_singleton, List.not_mem_nil,
      or_false] at hk
    rcases hk with ⟨h1, h2⟩ | ⟨h1, h2⟩ | ⟨h1, h2⟩ | ⟨h1, h2⟩
    · subst h1; subst h2
      simp +decide [processMessage, he, hd, assertString, assertObject,
        handleLocalDescription, relay, hv, broadcastToRoom_eq_map_targets]
    · subst h1; subst h2
      simp +decide [processMessage, he, hd, assertString, assertObject,
        handleRemoteDescription, relay, hv, broadcastToRoom_eq_map_targets]
    · subst h1; subst h2
      simp +decide [processMessage, he, hd, assertString, assertObject,
        handleIceCandidate, relay, hv, broadcastToRoom_eq_map_targets]
    · subst h1; subst h2
      simp +decide [processMessage, he, hd, assertString, assertObject,
        handleIceCandidateReply, relay, hv, broadcastToRoom_eq_map_targets]
  refine ⟨_, hp, ?_, ?_⟩
  · rw [List.map_map]
    exact List.map_id _
  · intro d hdm
    obtain ⟨t, _, rfl⟩ := List.mem_map.mp hdm
    refine ⟨rfl, rfl, ?_, ?_⟩
    · simp [index, hv]
    · intro k hkk
      have : ¬ key = k := fun e => hkk e.symm
      simp [index, this]

/-- C16 at a concrete input: the message of the counterexample, sent by A in
room r1 with B. -/
theorem C16_payload_rebuilt_witness :
    ∃ out,
      processMessage (applyOps emptyRegistry [Op.join "A" "r1", Op.join "B" "r1"]) "A"
          [("event", Value.string "localDescription"),
           ("data", Value.object [("description", Value.string "sdpA"),
                                  ("sdpMid", Value.string "0")])]
        = Except.ok (applyOps emptyRegistry [Op.join "A" "r1", Op.join "B" "r1"], out)
      ∧ out.map Delivery.target
        = BroadcastTargets (applyOps emptyRegistry [Op.join "A" "r1", Op.join "B" "r1"]) "A"
      ∧ ∀ d ∈ out, d.event = "localDescription"
          ∧ d.data = [("description", Value.string "sdpA")]
          ∧ index d.data "description"
            = index [("description", Value.string "sdpA"), ("sdpMid", Value.string "0")]
                "description"
          ∧ ∀ k, k ≠ "description" → index d.data k = none :=
  C16_payload_rebuilt _ "A" "localDescription" "description" "sdpA"
    [("event", Value.string "localDescription"),
     ("data", Value.object [("description", Value.string "sdpA"),
                            ("sdpMid", Value.string "0")])]
    [("description", Value.string "sdpA"), ("sdpMid", Value.string "0")]
    (by simp) rfl rfl rfl

/-! ## Target sequences depend on the index and the member lists only -/

theorem runActions_targets_of_members_eq (acts : List Action) (s t : Registry)
    (hu : s.users = t.users) (hm : ∀ q, members s q = members t q) :
    (runActions s acts).2 = (runActions t acts).2 := by
  induction acts generalizing s t with
  | nil => rfl
  | cons a rest ih =>
    cases a with
    | join c r =>
      apply ih
      · funext d
        rw [users_Join, users_Join, hu]
      · intro q
        rw [members_Join, members_Join, hm r, hm q]
    | leave c =>
      have hl : usersLookup s c = usersLookup t c := by simp [usersLookup, hu]
      apply ih
      · funext d
        rw [users_handleDisconnect, users_handleDisconnect, hu]
      · intro q
        rw [members_handleDisconnect, members_handleDisconnect, hl, hm q]
    | broadcast c =>
      have hl : usersLookup s c = usersLookup t c := by simp [usersLookup, hu]
      simp only [runActions]
      rw [ih s t hu hm, BroadcastTargets_eq, BroadcastTargets_eq, hl, hm]

end GoMeet
